import Mathlib

/-! Verification of the incident-report engine specification against the repository

The repository ships a Calculator JavaScript module (src/calculator.js) together
with documentation of an incident-report aggregation engine (time-window
resolver, disk cache, API client, aggregator).  The engine itself is not among
the source files, so its components are modelled here from the specification
text; the Calculator is embedded directly from src/calculator.js.

Conventions: instants are seconds since the Unix epoch as `Int`; the anchor
offset GMT+7 is a fixed constant; day arithmetic uses `Int` floor division
(`Int.ediv`, the `/` of `Int`), which is exact for calendar boundaries on both
sides of the epoch.
-/

/-! Calendar arithmetic (anchor offset, civil dates) -/

/-- Modelled from the spec: the fixed anchor offset GMT+7, in seconds. -/
def anchorSecs : Int := 7 * 3600

/-- Seconds per civil day. -/
def secsPerDay : Int := 86400

/-- Modelled from the spec: Gregorian leap-year rule. -/
def isLeapYear (y : Int) : Bool :=
  (y % 4 == 0 && y % 100 != 0) || (y % 400 == 0)

/-- Modelled from the spec: length of month `m` in year `y`. -/
def daysInMonth (y m : Int) : Int :=
  if m = 2 then (if isLeapYear y then 29 else 28)
  else if m = 4 ∨ m = 6 ∨ m = 9 ∨ m = 11 then 30
  else 31

/-- Modelled from the spec: days since 1970-01-01 of the civil date `y-m-d`
(standard era-based Gregorian conversion, exact for all years). -/
def daysFromCivil (y m d : Int) : Int :=
  let yAdj := if m ≤ 2 then y - 1 else y
  let era := yAdj / 400
  let yoe := yAdj - era * 400
  let mp := (m + 9) % 12
  let doy := (153 * mp + 2) / 5 + d - 1
  let doe := yoe * 365 + yoe / 4 - yoe / 100 + doy
  era * 146097 + doe - 719468

/-- Modelled from the spec: civil date `(y, m, d)` of a day count since
1970-01-01 (inverse of `daysFromCivil`). -/
def civilFromDays (z0 : Int) : Int × Int × Int :=
  let z := z0 + 719468
  let era := z / 146097
  let doe := z - era * 146097
  let yoe := (doe - doe / 1460 + doe / 36524 - doe / 146096) / 365
  let y := yoe + era * 400
  let doy := doe - (365 * yoe + yoe / 4 - yoe / 100)
  let mp := (5 * doy + 2) / 153
  let d := doy - (153 * mp + 2) / 5 + 1
  let m := if mp < 10 then mp + 3 else mp - 9
  (if m ≤ 2 then y + 1 else y, m, d)

/-! Calendar-date parsing for the explicit-date input -/

/-- Value of a decimal digit character, `none` for any other character. -/
def digitVal (c : Char) : Option Nat :=
  if '0' ≤ c ∧ c ≤ '9' then some (c.toNat - '0'.toNat) else none

/-- Accumulating decimal parser over characters; fails on a non-digit. -/
def parseNatCore : List Char → Nat → Option Nat
  | [], acc => some acc
  | c :: cs, acc =>
    match digitVal c with
    | some d => parseNatCore cs (acc * 10 + d)
    | none => none

/-- Parse a nonempty all-digit character list as a natural number. -/
def parseNatDigits (cs : List Char) : Option Nat :=
  match cs with
  | [] => none
  | _ => parseNatCore cs 0

/-- Split a character list into the groups separated by the dash character. -/
def splitDash : List Char → List (List Char)
  | [] => [[]]
  | c :: rest =>
    match splitDash rest with
    | [] => [[]]
    | g :: gs => if c = '-' then [] :: g :: gs else (c :: g) :: gs

/-- Modelled from the spec: parse an explicit date string as a calendar date
`YYYY-MM-DD` in the anchor offset, checking month range and month length;
returns `none` exactly when the string cannot be parsed as a calendar date. -/
def parseCivilDate (s : String) : Option (Int × Int × Int) :=
  match splitDash s.data with
  | [ys, ms, ds] =>
    match parseNatDigits ys, parseNatDigits ms, parseNatDigits ds with
    | some y, some m, some d =>
      if 1 ≤ m ∧ m ≤ 12 ∧ 1 ≤ d ∧ (d : Int) ≤ daysInMonth y m then
        some ((y : Int), (m : Int), (d : Int))
      else none
    | _, _, _ => none
  | _ => none

/-! TimeWindow resolver -/

/-- Report kinds of the engine. -/
inductive ReportKind where
  | daily
  | weekly
  | monthly
deriving DecidableEq

/-- Error taxonomy entry raised by the resolver on bad user input. -/
inductive ResolveError where
  | invalidWindow
deriving DecidableEq

/-- Modelled from the spec: a reporting window; `start` inclusive and `stop`
exclusive, both UTC instants.  The presentation-only display label of the
specification is omitted: no claim observes it. -/
structure TimeWindow where
  start : Int
  stop : Int
  kind : ReportKind
  offset : Int
deriving DecidableEq

/-- Modelled from the spec: `resolve(kind, explicit_date?, offset, now)`.
Rejects a negative offset or an unparseable explicit date with
`InvalidWindow`; an explicit date yields that single local day; `weekly`
yields the seven days from the most recent local Tuesday at or before `now`
minus `offset` weeks; `monthly` yields the local calendar month containing
`now` minus `offset` months; `daily` yields the local day containing `now`
minus `offset` days.  Local boundaries are taken in the anchor offset and then
converted to UTC.  Pure: no network access, no side effects. -/
def resolve (kind : ReportKind) (explicitDate : Option String) (offset : Int)
    (now : Int) : Except ResolveError TimeWindow :=
  if offset < 0 then .error .invalidWindow
  else
    match explicitDate with
    | some s =>
      match parseCivilDate s with
      | none => .error .invalidWindow
      | some (y, m, d) =>
        let dayStart := daysFromCivil y m d * secsPerDay - anchorSecs
        .ok ⟨dayStart, dayStart + secsPerDay, kind, offset⟩
    | none =>
      match kind with
      | .daily =>
        let ld := (now + anchorSecs) / secsPerDay - offset
        .ok ⟨ld * secsPerDay - anchorSecs, (ld + 1) * secsPerDay - anchorSecs,
          .daily, offset⟩
      | .weekly =>
        let ld := (now + anchorSecs) / secsPerDay
        let tue := ld - (ld + 2) % 7
        let ws := (tue - 7 * offset) * secsPerDay - anchorSecs
        .ok ⟨ws, ws + 7 * secsPerDay, .weekly, offset⟩
      | .monthly =>
        let ld := (now + anchorSecs) / secsPerDay
        let c := civilFromDays ld
        let tm := c.1 * 12 + (c.2.1 - 1) - offset
        let ms := daysFromCivil (tm / 12) (tm % 12 + 1) 1 * secsPerDay - anchorSecs
        let me2 := daysFromCivil ((tm + 1) / 12) ((tm + 1) % 12 + 1) 1 * secsPerDay - anchorSecs
        .ok ⟨ms, me2, .monthly, offset⟩

example : daysFromCivil 1970 1 1 = 0 := by decide
example : daysFromCivil 2025 10 22 = 20383 := by decide
example : civilFromDays 20383 = (2025, 10, 22) := by decide
example : parseCivilDate "2025-10-22" = some (2025, 10, 22) := by decide
example : parseCivilDate "2025-13-01" = none := by decide
example : parseCivilDate "2025-02-29" = none := by decide
example : parseCivilDate "2024-02-29" = some (2024, 2, 29) := by decide
example : parseCivilDate "nonsense" = none := by decide
example : resolve .weekly none 0 1761109200 =
    .ok ⟨1760979600, 1761584400, .weekly, 0⟩ := rfl

/-! Incident entity, raw records and API-client normalization -/

/-- Modelled from the spec: the incident entity produced by the API Client.
`openedAt` is the required UTC instant; `resolvedAt` is absent while the
incident is still active. -/
structure Incident where
  id : String
  openedAt : Int
  resolvedAt : Option Int
  assignee : Option String
  slaDeadline : Option Int
deriving DecidableEq

/-- Modelled from the spec: a raw upstream incident record before
normalization; every timestamp field may be missing. -/
structure RawRecord where
  rid : String
  rawOpenedAt : Option Int
  rawResolvedAt : Option Int
  rawAssignee : Option String
  rawSla : Option Int
deriving DecidableEq

/-- Build the incident entity from a raw record whose opened-at is present. -/
def toIncident (r : RawRecord) (o : Int) : Incident :=
  ⟨r.rid, o, r.rawResolvedAt, r.rawAssignee, r.rawSla⟩

/-- Modelled from the spec: API-client normalization.  A record missing the
required opened-at field is dropped and counted; every other record becomes an
incident, in upstream order.  Returns the incidents and the dropped counter.
Total: a malformed record never fails the run. -/
def normalizeRecords : List RawRecord → List Incident × Nat
  | [] => ([], 0)
  | r :: rs =>
    let p := normalizeRecords rs
    match r.rawOpenedAt with
    | some o => (toIncident r o :: p.1, p.2)
    | none => (p.1, p.2 + 1)

/-! Aggregator -/

/-- Local calendar day (in the anchor offset) containing a UTC instant. -/
def localDayOf (t : Int) : Int := (t + anchorSecs) / secsPerDay

/-- The resolved-at instant of an incident known to be resolved. -/
def resolvedAtD (i : Incident) : Int := i.resolvedAt.getD 0

/-- Membership of the opened-in-window partition. -/
def openedInWin (w : TimeWindow) (i : Incident) : Bool :=
  decide (w.start ≤ i.openedAt) && decide (i.openedAt < w.stop)

/-- Membership of the resolved-in-window partition. -/
def resolvedInWin (w : TimeWindow) (i : Incident) : Bool :=
  match i.resolvedAt with
  | some r => decide (w.start ≤ r) && decide (r < w.stop)
  | none => false

/-- Membership of the active-as-of-window-end partition. -/
def activeAtWinStop (w : TimeWindow) (i : Incident) : Bool :=
  match i.resolvedAt with
  | some r => decide (w.stop ≤ r)
  | none => true

/-- Over-SLA predicate as of the window end: deadline present and exceeded by
the resolved-at instant, or by the window end for a still-active incident. -/
def overSlaAtWinStop (w : TimeWindow) (i : Incident) : Bool :=
  match i.slaDeadline with
  | some dl =>
    match i.resolvedAt with
    | some r => decide (dl < r)
    | none => decide (dl < w.stop)
  | none => false

/-- The list of local calendar days from `a` to `b`, both included. -/
def dayRange (a b : Int) : List Int :=
  (List.range (b + 1 - a).toNat).map (fun n => a + Int.ofNat n)

/-- One per-day bucket of the report breakdown. -/
structure DayBucket where
  day : Int
  openedCount : Nat
  resolvedCount : Nat
deriving DecidableEq

/-- Modelled from the spec: the Report value.  The three partitions are kept
as lists (the rendered report shows detailed lists for each); MTTR and the
oldest-active age are absent, not zero, when their underlying set is empty. -/
structure Report where
  window : TimeWindow
  active : List Incident
  openedInWindow : List Incident
  resolvedInWindow : List Incident
  mttr : Option ℚ
  oldestActiveAge : Option Int
  withoutAssignee : Nat
  overSla : Nat
  perDay : List DayBucket

/-- Modelled from the spec: `aggregate(incidents, window)`.  Partitions the
incidents, computes MTTR as the mean resolution duration of the
resolved-in-window incidents, the oldest-active age, the predicate counts and
the per-day breakdown over the local calendar days spanned by the window.
Pure and deterministic. -/
def aggregate (incidents : List Incident) (w : TimeWindow) : Report :=
  let opened := incidents.filter (openedInWin w)
  let resolved := incidents.filter (resolvedInWin w)
  let act := incidents.filter (activeAtWinStop w)
  let durs := resolved.map (fun i => resolvedAtD i - i.openedAt)
  let mttr : Option ℚ :=
    if resolved.isEmpty then none
    else some ((durs.sum : ℚ) / (resolved.length : ℚ))
  let oldest : Option Int :=
    match act.map (fun i => w.stop - i.openedAt) with
    | [] => none
    | x :: xs => some (xs.foldl max x)
  let firstDay := localDayOf w.start
  let lastDay := localDayOf (w.stop - 1)
  let perDay := (dayRange firstDay lastDay).map (fun d =>
    ⟨d, opened.countP (fun i => localDayOf i.openedAt == d),
      resolved.countP (fun i => localDayOf (resolvedAtD i) == d)⟩)
  { window := w
    active := act
    openedInWindow := opened
    resolvedInWindow := resolved
    mttr := mttr
    oldestActiveAge := oldest
    withoutAssignee := act.countP (fun i => i.assignee.isNone)
    overSla := act.countP (overSlaAtWinStop w) + resolved.countP (overSlaAtWinStop w)
    perDay := perDay }

/-! Disk cache -/

/-- Modelled from the spec: a cache entry holding the raw payload, the
upstream modification marker it was fetched under, and the storing instant. -/
structure CacheEntry where
  payload : List RawRecord
  marker : Int
  storedAt : Int
deriving DecidableEq

/-- Modelled from the spec: the observable upstream state during one call: the
current modification marker reported by the probe, and the records a fetch
would return. -/
structure UpstreamState where
  marker : Int
  records : List RawRecord
deriving DecidableEq

/-- A cache store: fingerprints mapped to entries, most recent binding first. -/
abbrev CacheStore : Type := List (String × CacheEntry)

/-- Modelled from the spec: `get_or_fetch(fingerprint, fetch_fn)`.  If a
stored entry exists and its marker matches the current upstream marker, the
stored payload is returned without fetching; otherwise the fetch function is
invoked, its result stored under the new marker, and returned.  The final
component counts the fetch-function invocations of the call (0 or 1). -/
def getOrFetch (store : CacheStore) (fp : String) (up : UpstreamState)
    (now : Int) : List RawRecord × CacheStore × Nat :=
  match List.lookup fp store with
  | some e =>
    if e.marker = up.marker then (e.payload, store, 0)
    else (up.records, (fp, ⟨up.records, up.marker, now⟩) :: store, 1)
  | none => (up.records, (fp, ⟨up.records, up.marker, now⟩) :: store, 1)

/-! Calculator (embedded from src/calculator.js)

JavaScript numbers are modelled as exact rationals extended with the three
IEEE special values; finite arithmetic is exact (rounding is immaterial to
every claim, which concern control flow, history bookkeeping and
division-by-zero).  The model has no negative zero; division by zero follows
the IEEE sign rules with the positive zero of the model. -/

/-- A JavaScript number: a finite value, an infinity, or NaN. -/
inductive JsNum where
  | fin (q : ℚ)
  | posInf
  | negInf
  | nan
deriving DecidableEq

/-- The JavaScript `isFinite` predicate on numbers. -/
def jsIsFinite : JsNum → Bool
  | .fin _ => true
  | _ => false

/-- Negation of a JavaScript number. -/
def jsNeg : JsNum → JsNum
  | .fin q => .fin (-q)
  | .posInf => .negInf
  | .negInf => .posInf
  | .nan => .nan

/-- JavaScript addition on numbers. -/
def jsAdd : JsNum → JsNum → JsNum
  | .nan, _ => .nan
  | _, .nan => .nan
  | .fin a, .fin b => .fin (a + b)
  | .posInf, .negInf => .nan
  | .negInf, .posInf => .nan
  | .posInf, _ => .posInf
  | _, .posInf => .posInf
  | .negInf, _ => .negInf
  | _, .negInf => .negInf

/-- JavaScript subtraction on numbers. -/
def jsSub (a b : JsNum) : JsNum := jsAdd a (jsNeg b)

/-- JavaScript multiplication on numbers. -/
def jsMul : JsNum → JsNum → JsNum
  | .nan, _ => .nan
  | _, .nan => .nan
  | .fin a, .fin b => .fin (a * b)
  | .posInf, .posInf => .posInf
  | .negInf, .negInf => .posInf
  | .posInf, .negInf => .negInf
  | .negInf, .posInf => .negInf
  | .posInf, .fin b => if 0 < b then .posInf else if b < 0 then .negInf else .nan
  | .fin b, .posInf => if 0 < b then .posInf else if b < 0 then .negInf else .nan
  | .negInf, .fin b => if 0 < b then .negInf else if b < 0 then .posInf else .nan
  | .fin b, .negInf => if 0 < b then .negInf else if b < 0 then .posInf else .nan

/-- JavaScript division on numbers; a nonzero finite value divided by zero is
a signed infinity, zero by zero is NaN. -/
def jsDiv : JsNum → JsNum → JsNum
  | .nan, _ => .nan
  | _, .nan => .nan
  | .fin a, .fin b =>
    if b = 0 then (if a = 0 then .nan else if 0 < a then .posInf else .negInf)
    else .fin (a / b)
  | .fin _, .posInf => .fin 0
  | .fin _, .negInf => .fin 0
  | .posInf, .fin b => if b < 0 then .negInf else .posInf
  | .negInf, .fin b => if b < 0 then .posInf else .negInf
  | .posInf, .posInf => .nan
  | .posInf, .negInf => .nan
  | .negInf, .posInf => .nan
  | .negInf, .negInf => .nan

/-- Truncating integer quotient of rationals, as JavaScript remainder needs. -/
def ratTrunc (q : ℚ) : Int := Int.tdiv q.num (q.den : Int)

/-- JavaScript remainder on finite values (truncated division). -/
def finRem (a b : ℚ) : ℚ := a - b * (ratTrunc (a / b) : ℚ)

/-- Model of `Math.pow` as used by `root`: exact for nonnegative integer
exponents of finite bases; the fractional-exponent result used by `root` is a
floating-point value in the source and is abstracted to zero here — only the
control flow and the history bookkeeping of `root` are claimed about. -/
def mathPowModel (base expo : ℚ) : ℚ :=
  if expo.den = 1 ∧ 0 ≤ expo.num then base ^ expo.num.toNat else 0

/-- A JavaScript value as far as the calculator validations observe it: a
number, or anything whose `typeof` is not `number`. -/
inductive JsVal where
  | num (n : JsNum)
  | other
deriving DecidableEq

/-- Truth of the `typeof x === number` test. -/
def JsVal.isNumV : JsVal → Bool
  | .num _ => true
  | .other => false

/-- A number value that is moreover finite. -/
def JsVal.finiteNum : JsVal → Bool
  | .num n => jsIsFinite n
  | .other => false

/-- The error taxonomy of the calculator: `TypeError` or plain `Error`, with
the thrown message. -/
inductive CalcErr where
  | typeError (msg : String)
  | error (msg : String)
deriving DecidableEq

/-- The mutable state of a `Calculator` instance: its history array. -/
structure CalcState where
  history : List String
deriving DecidableEq

/-- Decimal rendering of a JavaScript number for history entries; integers
render without a decimal part, exactly as the source template literals need
for every claim (claims observe only entry counts). -/
def jsNumToString : JsNum → String
  | .fin q => if q.den = 1 then toString q.num else toString q
  | .posInf => "Infinity"
  | .negInf => "-Infinity"
  | .nan => "NaN"

/-- Did a calculator call throw? -/
def calcThrew (r : (Except CalcErr JsNum) × CalcState) : Bool :=
  match r.1 with
  | .error _ => true
  | .ok _ => false

/-- Embedded from src/calculator.js: `add` computes the sum, appends one
history entry and returns the result; no validation. -/
def calcAdd (s : CalcState) (a b : JsNum) : (Except CalcErr JsNum) × CalcState :=
  let result := jsAdd a b
  (.ok result, ⟨s.history ++
    [jsNumToString a ++ " + " ++ jsNumToString b ++ " = " ++ jsNumToString result]⟩)

/-- Embedded from src/calculator.js: `subtract`. -/
def calcSubtract (s : CalcState) (a b : JsNum) : (Except CalcErr JsNum) × CalcState :=
  let result := jsSub a b
  (.ok result, ⟨s.history ++
    [jsNumToString a ++ " - " ++ jsNumToString b ++ " = " ++ jsNumToString result]⟩)

/-- Embedded from src/calculator.js: `divide` has no zero check (the TODO in
the source); it always divides, appends one history entry and returns. -/
def calcDivide (s : CalcState) (a b : JsNum) : (Except CalcErr JsNum) × CalcState :=
  let result := jsDiv a b
  (.ok result, ⟨s.history ++
    [jsNumToString a ++ " / " ++ jsNumToString b ++ " = " ++ jsNumToString result]⟩)

/-- Embedded from src/calculator.js: `multiply` returns the product and does
not save to history. -/
def calcMultiply (s : CalcState) (a b : JsNum) : (Except CalcErr JsNum) × CalcState :=
  (.ok (jsMul a b), s)

/-- Embedded from src/calculator.js: `percentage(value, percent)`; throws
`TypeError` on a non-number argument, `Error` on a non-finite argument, else
pushes one entry and returns `(value * percent) / 100`. -/
def calcPercentage (s : CalcState) (value percent : JsVal) :
    (Except CalcErr JsNum) × CalcState :=
  match value, percent with
  | .num v, .num p =>
    if jsIsFinite v && jsIsFinite p then
      let result := jsDiv (jsMul v p) (.fin 100)
      (.ok result, ⟨s.history ++
        [jsNumToString p ++ "% of " ++ jsNumToString v ++ " = " ++ jsNumToString result]⟩)
    else (.error (.error "Arguments must be finite numbers"), s)
  | _, _ => (.error (.typeError "Both arguments must be numbers"), s)

/-- Embedded from src/calculator.js: `percentOf(part, whole)`; throws
`TypeError` on a non-number argument, `Error` on a non-finite argument or a
zero `whole`, else pushes one entry and returns `(part / whole) * 100`. -/
def calcPercentOf (s : CalcState) (part whole : JsVal) :
    (Except CalcErr JsNum) × CalcState :=
  match part, whole with
  | .num p, .num w =>
    if jsIsFinite p && jsIsFinite w then
      if w = .fin 0 then (.error (.error "Cannot calculate percentage of zero"), s)
      else
        let result := jsMul (jsDiv p w) (.fin 100)
        (.ok result, ⟨s.history ++
          [jsNumToString p ++ " is " ++ jsNumToString result ++ "% of " ++ jsNumToString w]⟩)
    else (.error (.error "Arguments must be finite numbers"), s)
  | _, _ => (.error (.typeError "Both arguments must be numbers"), s)

/-- Embedded from src/calculator.js: `square(n)`; validations, then pushes one
entry and returns `n * n`. -/
def calcSquare (s : CalcState) (nv : JsVal) : (Except CalcErr JsNum) × CalcState :=
  match nv with
  | .num n =>
    if jsIsFinite n then
      let result := jsMul n n
      (.ok result, ⟨s.history ++
        [jsNumToString n ++ "² = " ++ jsNumToString result]⟩)
    else (.error (.error "Argument must be a finite number"), s)
  | .other => (.error (.typeError "Argument must be a number"), s)

/-- Embedded from src/calculator.js: `root(value, n)`; validations (types,
finiteness, zero degree, even root of a negative), then computes via
`Math.pow` with exponent `1 / n`, handling the sign of a negative value with
an odd degree separately, and pushes exactly one entry whose shape depends on
the degree. -/
def calcRoot (s : CalcState) (value degree : JsVal) :
    (Except CalcErr JsNum) × CalcState :=
  match value, degree with
  | .num (.fin vq), .num (.fin nq) =>
    if nq = 0 then (.error (.error "Root degree cannot be zero"), s)
    else if vq < 0 ∧ finRem nq 2 = 0 then
      (.error (.error "Cannot calculate even root of negative number"), s)
    else
      let result : JsNum :=
        if vq < 0 ∧ ¬finRem nq 2 = 0 then .fin (-(mathPowModel (|vq|) (1 / nq)))
        else .fin (mathPowModel vq (1 / nq))
      let entry :=
        if nq = 2 then "√" ++ jsNumToString (.fin vq) ++ " = " ++ jsNumToString result
        else if nq = 3 then "∛" ++ jsNumToString (.fin vq) ++ " = " ++ jsNumToString result
        else jsNumToString (.fin nq) ++ "√" ++ jsNumToString (.fin vq) ++ " = " ++
          jsNumToString result
      (.ok result, ⟨s.history ++ [entry]⟩)
  | .num _, .num _ => (.error (.error "Arguments must be finite numbers"), s)
  | _, _ => (.error (.typeError "Both arguments must be numbers"), s)

/-! Counting helper lemmas for the per-day breakdown -/

/-- Pointwise sums distribute over a mapped list. -/
theorem sum_map_add_nat {α : Type} (g h : α → Nat) (l : List α) :
    (l.map (fun d => g d + h d)).sum = (l.map g).sum + (l.map h).sum := by
  induction l with
  | nil => simp
  | cons a t ih => simp only [List.map_cons, List.sum_cons, ih]; omega

/-- Summing an indicator over a list counts the satisfying elements. -/
theorem sum_map_ite_eq_countP {α : Type} (p : α → Bool) (l : List α) :
    (l.map (fun d => if p d then 1 else 0)).sum = l.countP p := by
  induction l with
  | nil => simp
  | cons a t ih =>
    simp only [List.map_cons, List.sum_cons, List.countP_cons, ih]
    by_cases h : p a
    · simp only [h, if_true]
      omega
    · simp [h]

/-- Exchanging the two summations: summing, over the day list, the number of
elements landing on each day equals summing, over the elements, the number of
days each element lands on. -/
theorem countP_swap {α : Type} (f : α → Int) (l : List α) (days : List Int) :
    (days.map (fun d => l.countP (fun x => f x == d))).sum
      = (l.map (fun x => days.countP (fun d => f x == d))).sum := by
  induction l with
  | nil => simp
  | cons a t ih =>
    simp only [List.countP_cons, List.map_cons, List.sum_cons]
    rw [sum_map_add_nat (fun d => t.countP (fun x => f x == d))
      (fun d => if f a == d then 1 else 0) days, ih,
      sum_map_ite_eq_countP (fun d => f a == d) days]
    omega

/-- Counting occurrences of a value in a shifted range. -/
theorem countP_range_shift (a v : Int) (n : Nat) :
    ((List.range n).map (fun i => a + Int.ofNat i)).countP (fun d => v == d)
      = if a ≤ v ∧ v < a + (n : Int) then 1 else 0 := by
  induction n with
  | zero =>
    simp only [List.range_zero, List.map_nil, List.countP_nil]
    split_ifs with h
    · omega
    · rfl
  | succ n ih =>
    rw [List.range_succ, List.map_append, List.countP_append, ih]
    simp only [List.map_cons, List.map_nil, List.countP_cons, List.countP_nil,
      beq_iff_eq, Int.ofNat_eq_coe]
    split_ifs <;> omega

/-- A day between the bounds of a day range occurs in it exactly once. -/
theorem countP_dayRange_eq_one (a b v : Int) (h1 : a ≤ v) (h2 : v ≤ b) :
    (dayRange a b).countP (fun d => v == d) = 1 := by
  unfold dayRange
  rw [countP_range_shift]
  split_ifs with h
  · rfl
  · exact absurd ⟨h1, by omega⟩ h

/-- A mapped sum where every element contributes one equals the length. -/
theorem sum_map_one_eq_length {α : Type} (l : List α) (g : α → Nat)
    (h : ∀ x ∈ l, g x = 1) : (l.map g).sum = l.length := by
  induction l with
  | nil => simp
  | cons a t ih =>
    simp only [List.map_cons, List.sum_cons, List.length_cons,
      h a (List.mem_cons_self a t), ih (fun x hx => h x (List.mem_cons_of_mem a hx))]
    omega

/-- Bounds carried by membership in the opened-in-window partition. -/
theorem openedInWin_bounds {w : TimeWindow} {i : Incident}
    (h : openedInWin w i = true) : w.start ≤ i.openedAt ∧ i.openedAt < w.stop := by
  simpa [openedInWin] using h

/-- Bounds carried by membership in the resolved-in-window partition. -/
theorem resolvedInWin_bounds {w : TimeWindow} {i : Incident}
    (h : resolvedInWin w i = true) :
    ∃ r, i.resolvedAt = some r ∧ w.start ≤ r ∧ r < w.stop := by
  unfold resolvedInWin at h
  cases hr : i.resolvedAt with
  | none => rw [hr] at h; exact absurd h (by simp)
  | some r =>
    rw [hr] at h
    refine ⟨r, rfl, ?_⟩
    simpa using h

/-- The local calendar day is monotone in the instant. -/
theorem localDayOf_mono {s t : Int} (h : s ≤ t) : localDayOf s ≤ localDayOf t := by
  simp only [localDayOf, anchorSecs, secsPerDay]
  omega

/-- Projecting the opened-count out of a mapped bucket list. -/
theorem map_bucket_openedCount (days : List Int) (c1 c2 : Int → Nat) :
    ((days.map (fun d => (⟨d, c1 d, c2 d⟩ : DayBucket))).map
      (fun b => b.openedCount)) = days.map c1 := by
  induction days with
  | nil => rfl
  | cons a t ih => simp only [List.map_cons, ih]

/-- Projecting the resolved-count out of a mapped bucket list. -/
theorem map_bucket_resolvedCount (days : List Int) (c1 c2 : Int → Nat) :
    ((days.map (fun d => (⟨d, c1 d, c2 d⟩ : DayBucket))).map
      (fun b => b.resolvedCount)) = days.map c2 := by
  induction days with
  | nil => rfl
  | cons a t ih => simp only [List.map_cons, ih]

/-! Claim theorems -/

/-- C7: for every incident list and window, the per-day opened-counts of the
report sum to the number of opened-in-window incidents, and the per-day
resolved-counts sum to the number of resolved-in-window incidents. -/
theorem aggregate_perDay_bucket_sums (incidents : List Incident) (w : TimeWindow) :
    ((aggregate incidents w).perDay.map (fun b => b.openedCount)).sum
        = (aggregate incidents w).openedInWindow.length ∧
    ((aggregate incidents w).perDay.map (fun b => b.resolvedCount)).sum
        = (aggregate incidents w).resolvedInWindow.length := by
  have hper : (aggregate incidents w).perDay
      = (dayRange (localDayOf w.start) (localDayOf (w.stop - 1))).map (fun d =>
          (⟨d, (incidents.filter (openedInWin w)).countP
              (fun i => localDayOf i.openedAt == d),
            (incidents.filter (resolvedInWin w)).countP
              (fun i => localDayOf (resolvedAtD i) == d)⟩ : DayBucket)) := rfl
  have hop : (aggregate incidents w).openedInWindow
      = incidents.filter (openedInWin w) := rfl
  have hres : (aggregate incidents w).resolvedInWindow
      = incidents.filter (resolvedInWin w) := rfl
  rw [hper, hop, hres]
  constructor
  · rw [map_bucket_openedCount,
      countP_swap (fun i : Incident => localDayOf i.openedAt)]
    apply sum_map_one_eq_length
    intro x hx
    have hb := openedInWin_bounds (List.mem_filter.mp hx).2
    exact countP_dayRange_eq_one _ _ _ (localDayOf_mono hb.1)
      (localDayOf_mono (by omega))
  · rw [map_bucket_resolvedCount,
      countP_swap (fun i : Incident => localDayOf (resolvedAtD i))]
    apply sum_map_one_eq_length
    intro x hx
    obtain ⟨r, hr, h1, h2⟩ := resolvedInWin_bounds (List.mem_filter.mp hx).2
    have hrd : resolvedAtD x = r := by simp [resolvedAtD, hr]
    rw [hrd]
    exact countP_dayRange_eq_one _ _ _ (localDayOf_mono h1)
      (localDayOf_mono (by omega))

/-- The weekly branch of the resolver, in closed form. -/
theorem resolve_weekly_eq (offset now : Int) (h : ¬offset < 0) :
    resolve .weekly none offset now =
      .ok ⟨((now + anchorSecs) / secsPerDay
              - ((now + anchorSecs) / secsPerDay + 2) % 7 - 7 * offset) * secsPerDay
            - anchorSecs,
          ((now + anchorSecs) / secsPerDay
              - ((now + anchorSecs) / secsPerDay + 2) % 7 - 7 * offset) * secsPerDay
            - anchorSecs + 7 * secsPerDay,
          .weekly, offset⟩ := by
  unfold resolve
  rw [if_neg h]

/-- C1: with offset 0 the weekly resolver returns, for every injected now, the
seven-day window whose start is a local Tuesday midnight in the anchor offset,
at or before now and less than seven days before it; in particular a now
inside Wednesday 2025-10-22 GMT+7 yields the UTC window
[2025-10-20T17:00:00Z, 2025-10-27T17:00:00Z). -/
theorem resolve_weekly_most_recent_tuesday (now : Int) :
    ∃ w : TimeWindow,
      resolve ReportKind.weekly none 0 now = Except.ok w ∧
      (w.start + anchorSecs) % secsPerDay = 0 ∧
      ((w.start + anchorSecs) / secsPerDay + 2) % 7 = 0 ∧
      w.start ≤ now ∧
      now < w.start + 7 * secsPerDay ∧
      w.stop = w.start + 7 * secsPerDay ∧
      resolve ReportKind.weekly none 0 1761109200 =
        Except.ok ⟨1760979600, 1761584400, ReportKind.weekly, 0⟩ := by
  refine ⟨_, resolve_weekly_eq 0 now (by omega), ?_, ?_, ?_, ?_, rfl, rfl⟩
  all_goals simp only [anchorSecs, secsPerDay]
  all_goals omega

/-- C6: the resolver fails, and fails with InvalidWindow, exactly when the
offset is negative or the explicit date cannot be parsed as a calendar date;
the resolver is a pure function, so the failure precedes any network call by
construction. -/
theorem resolve_invalidWindow_iff (kind : ReportKind)
    (explicitDate : Option String) (offset now : Int) :
    resolve kind explicitDate offset now = .error .invalidWindow ↔
      (offset < 0 ∨ ∃ s, explicitDate = some s ∧ parseCivilDate s = none) := by
  unfold resolve
  by_cases h : offset < 0
  · simp [h]
  · rw [if_neg h]
    cases explicitDate with
    | none => cases kind <;> simp [h]
    | some s =>
      cases hp : parseCivilDate s with
      | none => simp [h, hp]
      | some ymd =>
        obtain ⟨y, m, d⟩ := ymd
        simp [h, hp]

/-- C2: the MTTR of a report is the mean resolution duration over exactly the
resolved-in-window incidents, every one of which carries both timestamps; it
is absent, not zero, precisely when that set is empty, and whenever it is
present it satisfies the mean equation against the duration sum. -/
theorem aggregate_mttr_mean (incidents : List Incident) (w : TimeWindow) :
    (aggregate incidents w).resolvedInWindow
        = incidents.filter (resolvedInWin w) ∧
    (∀ i ∈ (aggregate incidents w).resolvedInWindow, i.resolvedAt.isSome) ∧
    ((aggregate incidents w).mttr = none ↔
      (aggregate incidents w).resolvedInWindow = []) ∧
    (∀ q : ℚ, (aggregate incidents w).mttr = some q →
      q * ((aggregate incidents w).resolvedInWindow.length : ℚ)
        = ((((aggregate incidents w).resolvedInWindow.map
            (fun i => resolvedAtD i - i.openedAt)).sum : Int) : ℚ)) := by
  have hres : (aggregate incidents w).resolvedInWindow
      = incidents.filter (resolvedInWin w) := rfl
  have hm : (aggregate incidents w).mttr
      = (if (incidents.filter (resolvedInWin w)).isEmpty then none
        else some (((((incidents.filter (resolvedInWin w)).map
            (fun i => resolvedAtD i - i.openedAt)).sum : Int) : ℚ)
          / (((incidents.filter (resolvedInWin w)).length : Nat) : ℚ))) := rfl
  refine ⟨hres, ?_, ?_, ?_⟩
  · intro i hi
    rw [hres] at hi
    obtain ⟨r, hr, _, _⟩ := resolvedInWin_bounds (List.mem_filter.mp hi).2
    rw [hr]
    rfl
  · rw [hm, hres]
    by_cases he : (incidents.filter (resolvedInWin w)).isEmpty
    · simp [he, List.isEmpty_iff.mp he]
    · simp only [he, if_false]
      constructor
      · intro hc
        exact absurd hc (by simp)
      · intro hc
        exact absurd (by simp [hc] : (incidents.filter (resolvedInWin w)).isEmpty = true) he
  · intro q hq
    rw [hm] at hq
    by_cases he : (incidents.filter (resolvedInWin w)).isEmpty
    · rw [if_pos he] at hq
      exact absurd hq (by simp)
    · rw [if_neg he] at hq
      have hq2 := Option.some.inj hq
      have hlen : (((incidents.filter (resolvedInWin w)).length : Nat) : ℚ) ≠ 0 := by
        have : (incidents.filter (resolvedInWin w)).length ≠ 0 := by
          intro h0
          exact he (by simpa [List.isEmpty_iff, List.length_eq_zero] using h0)
        exact_mod_cast this
      rw [hres, ← hq2, div_mul_cancel₀ _ hlen]

/-- C5: normalization drops exactly the records missing the opened-at field,
counting each once; every surviving record becomes the incident built from
its fields, in order; the partitions of any report aggregated from the result
draw only on those surviving incidents; and normalization is total, so a
malformed record never fails the run. -/
theorem normalize_drop_missing_openedAt (rs : List RawRecord) :
    (normalizeRecords rs).2 = rs.countP (fun r => r.rawOpenedAt.isNone) ∧
    (normalizeRecords rs).1
      = (rs.filter (fun r => r.rawOpenedAt.isSome)).map
          (fun r => toIncident r (r.rawOpenedAt.getD 0)) ∧
    ∀ w : TimeWindow,
      List.Sublist (aggregate (normalizeRecords rs).1 w).openedInWindow
        (normalizeRecords rs).1 ∧
      List.Sublist (aggregate (normalizeRecords rs).1 w).resolvedInWindow
        (normalizeRecords rs).1 ∧
      List.Sublist (aggregate (normalizeRecords rs).1 w).active
        (normalizeRecords rs).1 := by
  refine ⟨?_, ?_, ?_⟩
  · induction rs with
    | nil => rfl
    | cons r t ih =>
      simp only [normalizeRecords, List.countP_cons]
      cases hr : r.rawOpenedAt <;> simp [hr, ih]
  · induction rs with
    | nil => rfl
    | cons r t ih =>
      simp only [normalizeRecords]
      cases hr : r.rawOpenedAt <;> simp [hr, ih]
  · intro w
    exact ⟨List.filter_sublist _, List.filter_sublist _, List.filter_sublist _⟩

/-- C3: two sequential get-or-fetch calls on the same fingerprint under an
unchanged upstream marker, starting without a valid entry, invoke the fetch
function exactly once in total: the first call fetches, the second call
fetches nothing and returns the payload stored by the first. -/
theorem getOrFetch_twice_single_fetch (store : CacheStore) (fp : String)
    (up : UpstreamState) (t1 t2 : Int)
    (h : ∀ e, List.lookup fp store = some e → e.marker ≠ up.marker) :
    (getOrFetch store fp up t1).2.2 = 1 ∧
    (getOrFetch (getOrFetch store fp up t1).2.1 fp up t2).2.2 = 0 ∧
    (getOrFetch (getOrFetch store fp up t1).2.1 fp up t2).1
      = (getOrFetch store fp up t1).1 ∧
    (∃ e, List.lookup fp (getOrFetch store fp up t1).2.1 = some e ∧
      (getOrFetch (getOrFetch store fp up t1).2.1 fp up t2).1 = e.payload) := by
  cases hl : List.lookup fp store with
  | none => simp [getOrFetch, hl]
  | some e =>
    have hm := h e hl
    simp [getOrFetch, hl, hm]

/-- Witness for C2: the two-incident example with durations of two and four
hours inside a one-day window has an MTTR of three hours, and the mean
equation holds there. -/
theorem aggregate_mttr_mean_witness :
    (Incident.mk "a" 0 (some 7200) none none).resolvedAt.isSome = true ∧
    (10800 : ℚ) * (((aggregate
        [⟨"a", 0, some 7200, none, none⟩, ⟨"b", 0, some 14400, none, none⟩]
        ⟨0, 86400, .daily, 0⟩).resolvedInWindow.length : Nat) : ℚ)
      = ((((aggregate
          [⟨"a", 0, some 7200, none, none⟩, ⟨"b", 0, some 14400, none, none⟩]
          ⟨0, 86400, .daily, 0⟩).resolvedInWindow.map
            (fun i => resolvedAtD i - i.openedAt)).sum : Int) : ℚ) := by
  constructor
  · exact (aggregate_mttr_mean
      [⟨"a", 0, some 7200, none, none⟩, ⟨"b", 0, some 14400, none, none⟩]
      ⟨0, 86400, .daily, 0⟩).2.1 ⟨"a", 0, some 7200, none, none⟩ (by decide)
  · apply (aggregate_mttr_mean
      [⟨"a", 0, some 7200, none, none⟩, ⟨"b", 0, some 14400, none, none⟩]
      ⟨0, 86400, .daily, 0⟩).2.2.2 10800
    have h1 : (aggregate
        [⟨"a", 0, some 7200, none, none⟩, ⟨"b", 0, some 14400, none, none⟩]
        ⟨0, 86400, .daily, 0⟩).mttr
        = some (((21600 : Int) : ℚ) / ((2 : Nat) : ℚ)) := rfl
    rw [h1]
    norm_num

/-- Witness for C3: from an empty store, two calls on the same fingerprint
with the marker unchanged fetch once and agree on the stored payload. -/
theorem getOrFetch_twice_single_fetch_witness :
    (getOrFetch [] "fp1" ⟨5, [⟨"inc", some 0, none, none, none⟩]⟩ 100).2.2 = 1 ∧
    (getOrFetch (getOrFetch [] "fp1"
        ⟨5, [⟨"inc", some 0, none, none, none⟩]⟩ 100).2.1 "fp1"
        ⟨5, [⟨"inc", some 0, none, none, none⟩]⟩ 200).2.2 = 0 ∧
    (getOrFetch (getOrFetch [] "fp1"
        ⟨5, [⟨"inc", some 0, none, none, none⟩]⟩ 100).2.1 "fp1"
        ⟨5, [⟨"inc", some 0, none, none, none⟩]⟩ 200).1
      = (getOrFetch [] "fp1" ⟨5, [⟨"inc", some 0, none, none, none⟩]⟩ 100).1 ∧
    (∃ e, List.lookup "fp1" (getOrFetch [] "fp1"
        ⟨5, [⟨"inc", some 0, none, none, none⟩]⟩ 100).2.1 = some e ∧
      (getOrFetch (getOrFetch [] "fp1"
          ⟨5, [⟨"inc", some 0, none, none, none⟩]⟩ 100).2.1 "fp1"
          ⟨5, [⟨"inc", some 0, none, none, none⟩]⟩ 200).1 = e.payload) :=
  getOrFetch_twice_single_fetch [] "fp1"
    ⟨5, [⟨"inc", some 0, none, none, none⟩]⟩ 100 200 (fun _ he => nomatch he)

/-- C8: divide never throws: for every pair of number inputs it returns the
quotient and appends exactly one history entry; dividing ten by zero returns
Infinity rather than raising an error. -/
theorem divide_never_throws (s : CalcState) (a b : JsNum) :
    (calcDivide s a b).1 = Except.ok (jsDiv a b) ∧
    (calcDivide s a b).2.history
      = s.history ++ [jsNumToString a ++ " / " ++ jsNumToString b ++ " = "
          ++ jsNumToString (jsDiv a b)] ∧
    (calcDivide s a b).2.history.length = s.history.length + 1 ∧
    jsDiv (JsNum.fin 10) (JsNum.fin 0) = JsNum.posInf ∧
    (calcDivide s (JsNum.fin 10) (JsNum.fin 0)).1 = Except.ok JsNum.posInf := by
  refine ⟨rfl, rfl, ?_, ?_, ?_⟩
  · simp [calcDivide]
  · norm_num [jsDiv]
  · have h10 : jsDiv (JsNum.fin 10) (JsNum.fin 0) = JsNum.posInf := by
      norm_num [jsDiv]
    simp [calcDivide, h10]

/-- C9: multiply returns the product and leaves the history unchanged, while
each of the other arithmetic operations, on any successful call, appends
exactly one entry to the history. -/
theorem multiply_skips_history_others_append (s : CalcState) (a b : JsNum)
    (v u : JsVal) :
    (calcMultiply s a b).2 = s ∧
    (calcMultiply s a b).1 = Except.ok (jsMul a b) ∧
    (calcAdd s a b).2.history.length = s.history.length + 1 ∧
    (calcSubtract s a b).2.history.length = s.history.length + 1 ∧
    (calcDivide s a b).2.history.length = s.history.length + 1 ∧
    (∀ r st, calcPercentage s v u = (Except.ok r, st) →
      st.history.length = s.history.length + 1) ∧
    (∀ r st, calcPercentOf s v u = (Except.ok r, st) →
      st.history.length = s.history.length + 1) ∧
    (∀ r st, calcSquare s v = (Except.ok r, st) →
      st.history.length = s.history.length + 1) ∧
    (∀ r st, calcRoot s v u = (Except.ok r, st) →
      st.history.length = s.history.length + 1) := by
  refine ⟨rfl, rfl, by simp [calcAdd], by simp [calcSubtract], by simp [calcDivide],
    ?_, ?_, ?_, ?_⟩
  · intro r st h
    cases v with
    | other => simp [calcPercentage] at h
    | num nv =>
      cases u with
      | other => simp [calcPercentage] at h
      | num nu =>
        simp only [calcPercentage] at h
        split at h
        · rw [Prod.mk.injEq] at h
          obtain ⟨-, h2⟩ := h
          subst h2
          simp
        · simp at h
  · intro r st h
    cases v with
    | other => simp [calcPercentOf] at h
    | num nv =>
      cases u with
      | other => simp [calcPercentOf] at h
      | num nu =>
        simp only [calcPercentOf] at h
        split at h
        · split at h
          · simp at h
          · rw [Prod.mk.injEq] at h
            obtain ⟨-, h2⟩ := h
            subst h2
            simp
        · simp at h
  · intro r st h
    cases v with
    | other => simp [calcSquare] at h
    | num nv =>
      simp only [calcSquare] at h
      split at h
      · rw [Prod.mk.injEq] at h
        obtain ⟨-, h2⟩ := h
        subst h2
        simp
      · simp at h
  · intro r st h
    cases v with
    | other => simp [calcRoot] at h
    | num nv =>
      cases u with
      | other => simp [calcRoot] at h
      | num nu =>
        cases nv <;> cases nu <;>
          first
          | (simp only [calcRoot] at h
             split at h
             · simp at h
             · split at h
               · simp at h
               · rw [Prod.mk.injEq] at h
                 obtain ⟨-, h2⟩ := h
                 subst h2
                 simp)
          | simp [calcRoot] at h

/-- Witness for C9: concrete successful calls of each fallible operation
append exactly one entry to an empty history, and multiply leaves it empty. -/
theorem multiply_skips_history_others_append_witness :
    (calcMultiply ⟨[]⟩ (JsNum.fin 4) (JsNum.fin 7)).2 = (⟨[]⟩ : CalcState) ∧
    ((⟨[jsNumToString (JsNum.fin 10) ++ "% of " ++ jsNumToString (JsNum.fin 200)
        ++ " = " ++ jsNumToString (jsDiv (jsMul (JsNum.fin 200) (JsNum.fin 10))
          (JsNum.fin 100))]⟩ : CalcState)).history.length
      = (⟨[]⟩ : CalcState).history.length + 1 ∧
    ((⟨[jsNumToString (JsNum.fin 20) ++ " is "
        ++ jsNumToString (jsMul (jsDiv (JsNum.fin 20) (JsNum.fin 200)) (JsNum.fin 100))
        ++ "% of " ++ jsNumToString (JsNum.fin 200)]⟩ : CalcState)).history.length
      = (⟨[]⟩ : CalcState).history.length + 1 ∧
    ((⟨[jsNumToString (JsNum.fin 5) ++ "² = "
        ++ jsNumToString (jsMul (JsNum.fin 5) (JsNum.fin 5))]⟩ : CalcState)).history.length
      = (⟨[]⟩ : CalcState).history.length + 1 ∧
    ((⟨["∛" ++ jsNumToString (JsNum.fin 27) ++ " = "
        ++ jsNumToString (JsNum.fin (mathPowModel 27 (1 / 3)))]⟩ : CalcState)).history.length
      = (⟨[]⟩ : CalcState).history.length + 1 := by
  refine ⟨?_, ?_, ?_, ?_, ?_⟩
  · exact (multiply_skips_history_others_append ⟨[]⟩ (JsNum.fin 4) (JsNum.fin 7)
      JsVal.other JsVal.other).1
  · exact (multiply_skips_history_others_append ⟨[]⟩ (JsNum.fin 4) (JsNum.fin 7)
      (JsVal.num (JsNum.fin 200)) (JsVal.num (JsNum.fin 10))).2.2.2.2.2.1
      (jsDiv (jsMul (JsNum.fin 200) (JsNum.fin 10)) (JsNum.fin 100))
      ⟨[jsNumToString (JsNum.fin 10) ++ "% of " ++ jsNumToString (JsNum.fin 200)
        ++ " = " ++ jsNumToString (jsDiv (jsMul (JsNum.fin 200) (JsNum.fin 10))
          (JsNum.fin 100))]⟩ rfl
  · exact (multiply_skips_history_others_append ⟨[]⟩ (JsNum.fin 4) (JsNum.fin 7)
      (JsVal.num (JsNum.fin 20)) (JsVal.num (JsNum.fin 200))).2.2.2.2.2.2.1
      (jsMul (jsDiv (JsNum.fin 20) (JsNum.fin 200)) (JsNum.fin 100))
      ⟨[jsNumToString (JsNum.fin 20) ++ " is "
        ++ jsNumToString (jsMul (jsDiv (JsNum.fin 20) (JsNum.fin 200)) (JsNum.fin 100))
        ++ "% of " ++ jsNumToString (JsNum.fin 200)]⟩ rfl
  · exact (multiply_skips_history_others_append ⟨[]⟩ (JsNum.fin 4) (JsNum.fin 7)
      (JsVal.num (JsNum.fin 5)) JsVal.other).2.2.2.2.2.2.2.1
      (jsMul (JsNum.fin 5) (JsNum.fin 5))
      ⟨[jsNumToString (JsNum.fin 5) ++ "² = "
        ++ jsNumToString (jsMul (JsNum.fin 5) (JsNum.fin 5))]⟩ rfl
  · exact (multiply_skips_history_others_append ⟨[]⟩ (JsNum.fin 4) (JsNum.fin 7)
      (JsVal.num (JsNum.fin 27)) (JsVal.num (JsNum.fin 3))).2.2.2.2.2.2.2.2
      (JsNum.fin (mathPowModel 27 (1 / 3)))
      ⟨["∛" ++ jsNumToString (JsNum.fin 27) ++ " = "
        ++ jsNumToString (JsNum.fin (mathPowModel 27 (1 / 3)))]⟩ rfl

/-- A finite number satisfies the finiteness test. -/
theorem jsIsFinite_fin (q : ℚ) : jsIsFinite (JsNum.fin q) = true := rfl

/-- C10: percentOf throws exactly when an argument is not a number, an
argument is not a finite number, or the whole equals zero; and every throwing
call leaves the history unchanged, the entry being pushed only after all
validations succeed. -/
theorem percentOf_throws_iff (s : CalcState) (p w : JsVal) :
    ((calcThrew (calcPercentOf s p w) = true) ↔
      (p.isNumV = false ∨ w.isNumV = false ∨ p.finiteNum = false ∨
        w.finiteNum = false ∨ w = JsVal.num (JsNum.fin 0))) ∧
    (∀ e, (calcPercentOf s p w).1 = Except.error e →
      (calcPercentOf s p w).2 = s) := by
  constructor
  · cases p with
    | other => simp [calcPercentOf, calcThrew, JsVal.isNumV]
    | num np =>
      cases w with
      | other => simp [calcPercentOf, calcThrew, JsVal.isNumV]
      | num nw =>
        by_cases h1 : jsIsFinite np <;> by_cases h2 : jsIsFinite nw
        · by_cases h3 : nw = JsNum.fin 0 <;>
            simp [calcPercentOf, calcThrew, JsVal.isNumV, JsVal.finiteNum, jsIsFinite_fin,
              h1, h2, h3]
        · simp [calcPercentOf, calcThrew, JsVal.isNumV, JsVal.finiteNum, h1, h2]
        · simp [calcPercentOf, calcThrew, JsVal.isNumV, JsVal.finiteNum, h1, h2]
        · simp [calcPercentOf, calcThrew, JsVal.isNumV, JsVal.finiteNum, h1, h2]
  · intro e he
    cases p with
    | other => rfl
    | num np =>
      cases w with
      | other => rfl
      | num nw =>
        by_cases h1 : (jsIsFinite np && jsIsFinite nw) = true
        · by_cases h3 : nw = JsNum.fin 0
          · subst h3
            simp only [calcPercentOf]
            split <;> rfl
          · exfalso
            simp [calcPercentOf, h1, h3] at he
        · simp [calcPercentOf, h1]

/-- Witness for C10: percentOf with a zero whole throws and leaves a nonempty
history exactly as it was. -/
theorem percentOf_throws_iff_witness :
    calcThrew (calcPercentOf ⟨["5 + 3 = 8"]⟩ (JsVal.num (JsNum.fin 20))
      (JsVal.num (JsNum.fin 0))) = true ∧
    (calcPercentOf ⟨["5 + 3 = 8"]⟩ (JsVal.num (JsNum.fin 20))
      (JsVal.num (JsNum.fin 0))).2 = (⟨["5 + 3 = 8"]⟩ : CalcState) := by
  constructor
  · exact (percentOf_throws_iff ⟨["5 + 3 = 8"]⟩ (JsVal.num (JsNum.fin 20))
      (JsVal.num (JsNum.fin 0))).1.mpr
      (Or.inr (Or.inr (Or.inr (Or.inr rfl))))
  · exact (percentOf_throws_iff ⟨["5 + 3 = 8"]⟩ (JsVal.num (JsNum.fin 20))
      (JsVal.num (JsNum.fin 0))).2
      (CalcErr.error "Cannot calculate percentage of zero") rfl
